import Mathlib

/-!
Verification of the worm_scraper repository (src/worm_scraper.go) against its
natural-language specification.  Strings are modelled as `List Char`; Go's
`strings.Replace(s, old, new, -1)` (leftmost, non-overlapping, all
occurrences) is modelled by `replaceAll` below.
-/

namespace WormScraper

/-- Convert a string literal to the `List Char` representation used throughout. -/
def str (s : String) : List Char := s.toList

/-- Fuel-driven engine for `replaceAll` (fuel is consumed one list element or
one whole match per step, so `s.length` fuel always suffices). -/
def replaceAllFuel (pat rep : List Char) : Nat → List Char → List Char
  | _, [] => []
  | 0, s => s
  | fuel + 1, c :: rest =>
    if (!pat.isEmpty) && pat.isPrefixOf (c :: rest) then
      rep ++ replaceAllFuel pat rep fuel ((c :: rest).drop pat.length)
    else
      c :: replaceAllFuel pat rep fuel rest

/-- Model of Go `strings.Replace(s, pat, rep, -1)`: replace every leftmost
non-overlapping occurrence of `pat` in `s` by `rep`. -/
def replaceAll (pat rep s : List Char) : List Char :=
  replaceAllFuel pat rep s.length s

/-- `hasSub pat s` decides whether `pat` occurs as a contiguous substring of `s`. -/
def hasSub (pat : List Char) : List Char → Bool
  | [] => pat.isEmpty
  | c :: rest => pat.isPrefixOf (c :: rest) || hasSub pat rest

/-- Model of `Paragraph.Format` (src/worm_scraper.go lines 38-60): the exact
chain of `strings.Replace` calls, in source order. -/
def format (s0 : List Char) : List Char :=
  let s1 := replaceAll (str "<em>") (str "*") s0
  let s2 := replaceAll (str "</em>") (str "*") s1
  let s3 := replaceAll (str "<i>") (str "*") s2
  let s4 := replaceAll (str "</i>") (str "*") s3
  let s5 := replaceAll (str "<strong>") (str "**") s4
  let s6 := replaceAll (str "</strong>") (str "**") s5
  let s7 := replaceAll (str "<b>") (str "**") s6
  let s8 := replaceAll (str "</b>") (str "**") s7
  let s9 := replaceAll (str "\n") (str "") s8
  replaceAll (str ".  ") (str ". ") s9

/-- The ten search/replacement pairs of the formatter, in the order the spec
lists them (emphasis, bold, newline removal, period-space collapse). -/
def formatRules : List (List Char × List Char) :=
  [(str "<em>", str "*"), (str "</em>", str "*"),
   (str "<i>", str "*"), (str "</i>", str "*"),
   (str "<strong>", str "**"), (str "</strong>", str "**"),
   (str "<b>", str "**"), (str "</b>", str "**"),
   (str "\n", str ""), (str ".  ", str ". ")]

/-- Modelled from the spec's words (section 4.4): apply each listed
replacement in turn.  Used only to compare against `format`. -/
def specFormat (s : List Char) : List Char :=
  formatRules.foldl (fun acc r => replaceAll r.1 r.2 acc) s

/-- A string is pattern-free when none of the formatter's search patterns
occurs in it (the spec's notion of already-formatted text). -/
def noPat (s : List Char) : Bool :=
  (formatRules.map Prod.fst).all (fun p => !(hasSub p s))

theorem replaceAllFuel_no_sub (pat rep : List Char) :
    ∀ fuel s, hasSub pat s = false → replaceAllFuel pat rep fuel s = s := by
  intro fuel
  induction fuel with
  | zero => intro s _; cases s <;> rfl
  | succ n ih =>
    intro s h
    cases s with
    | nil => rfl
    | cons c rest =>
      have h' := h
      simp only [hasSub, Bool.or_eq_false_iff] at h'
      rw [replaceAllFuel]
      rw [if_neg]
      · rw [ih rest h'.2]
      · simp [h'.1]

theorem replaceAll_no_sub (pat rep s : List Char) (h : hasSub pat s = false) :
    replaceAll pat rep s = s :=
  replaceAllFuel_no_sub pat rep s.length s h

theorem format_eq_self_of_noPat (s : List Char) (h : noPat s = true) :
    format s = s := by
  simp only [noPat, formatRules, List.map, List.all_cons, List.all_nil,
    Bool.and_eq_true, Bool.not_eq_true', Bool.and_true] at h
  obtain ⟨h1, h2, h3, h4, h5, h6, h7, h8, h9, h10⟩ := h
  simp only [format]
  rw [replaceAll_no_sub _ _ _ h1, replaceAll_no_sub _ _ _ h2,
    replaceAll_no_sub _ _ _ h3, replaceAll_no_sub _ _ _ h4,
    replaceAll_no_sub _ _ _ h5, replaceAll_no_sub _ _ _ h6,
    replaceAll_no_sub _ _ _ h7, replaceAll_no_sub _ _ _ h8,
    replaceAll_no_sub _ _ _ h9, replaceAll_no_sub _ _ _ h10]

theorem format_eq_specFormat (s : List Char) : format s = specFormat s := by
  simp only [format, specFormat, formatRules, List.foldl_cons, List.foldl_nil]

/-- C7: the formatter is NOT idempotent on all inputs; this counterexample
shows it: on a period followed by three spaces, one application collapses the
first period-two-space occurrence leaving a new one, which a second
application collapses further. -/
theorem c7_format_idempotent_cex :
    ¬ (format (format (str ".   ")) = format (str ".   ")) := by decide

/-- C7 (amended): the formatter is idempotent on every input whose
once-formatted result is pattern-free, i.e. contains none of the searched
tokens (emphasis/bold tags, newline, period-double-space); on such inputs a
second application changes nothing. -/
theorem c7_format_idempotent_on_patFree (s : List Char)
    (h : noPat (format s) = true) : format (format s) = format s :=
  format_eq_self_of_noPat (format s) h

/-- C7 witness: a concrete input whose formatted form is pattern-free, on
which idempotence holds. -/
theorem c7_format_idempotent_on_patFree_wit :
    format (format (str "a. <em>b</em>")) = format (str "a. <em>b</em>") :=
  c7_format_idempotent_on_patFree (str "a. <em>b</em>") (by decide)

/-- C8: the formatter performs exactly the replacements the spec lists, in
that order (emphasis tags to one asterisk, bold tags to two, newlines
removed, period-two-spaces collapsed), and any string containing none of
those patterns passes through verbatim. -/
theorem c8_format_characterization (s : List Char) :
    format s = specFormat s ∧ (noPat s = true → format s = s) :=
  ⟨format_eq_specFormat s, fun h => format_eq_self_of_noPat s h⟩

/-- C8 witness: concrete evaluation of both parts on a pattern-free string. -/
theorem c8_format_characterization_wit :
    format (str "x <span>y</span>") = specFormat (str "x <span>y</span>") ∧
      (noPat (str "x <span>y</span>") = true →
        format (str "x <span>y</span>") = str "x <span>y</span>") :=
  c8_format_characterization (str "x <span>y</span>")

/-! ## Data model (src/worm_scraper.go lines 20-35) -/

/-- Model of the `Chapter` struct. -/
structure Chapter where
  title : List Char
  url : List Char
  tags : List (List Char)
  paragraphs : List (List Char)
  retries : Nat
  datePosted : List Char
deriving DecidableEq

/-- Model of the `Arc` struct. -/
structure Arc where
  identifier : List Char
  title : List Char
  chapters : List Chapter
deriving DecidableEq

/-- A `Chapter{}` zero value in Go: all fields at their zero values. -/
def blankChapter : Chapter := ⟨[], [], [], [], 0, []⟩

/-! ## Arc matching (Chapter.WhichArc, lines 63-70) and chapter assignment
(main's table-of-contents anchor loop, lines 186-197). -/

/-- The loop body of `WhichArc`: index of the first arc whose identifier
equals the given stripped two-character title prefix, if any. -/
def whichArcLoop (pfx : List Char) : List Arc → Option Nat
  | [] => none
  | a :: rest =>
    if a.identifier = pfx then some 0 else (whichArcLoop pfx rest).map (· + 1)

/-- The two-character title prefix with periods stripped, as computed by
`WhichArc`'s `strings.Replace(ch.Title[:2], ".", "", -1)`. -/
def arcPfx (title : List Char) : List Char :=
  replaceAll (str ".") (str "") (title.take 2)

/-- Model of `Chapter.WhichArc` on a chapter title.  `ch.Title[:2]` panics
(modelled as `none`) when the title is shorter than two characters; otherwise
the periods are stripped from the two-character prefix and the first arc with
that identifier is returned, or a (non-fatal) error value when none matches. -/
def whichArcE (title : List Char) (arcs : List Arc) : Option (Except Unit Nat) :=
  if title.length < 2 then none
  else
    some (match whichArcLoop (arcPfx title) arcs with
      | some i => Except.ok i
      | none => Except.error ())

/-- Append a chapter to the arc at index `i` (no-op when out of range, which
never occurs for indices produced by `whichArcLoop`). -/
def appendAt (arcs : List Arc) (i : Nat) (ch : Chapter) : List Arc :=
  match arcs.get? i with
  | none => arcs
  | some a => arcs.set i { a with chapters := a.chapters ++ [ch] }

/-- ASCII whitespace as recognised by Go `strings.TrimSpace` (the Unicode
space classes beyond ASCII are not modelled; no claim depends on them). -/
def isSpaceChar (c : Char) : Bool :=
  c = ' ' || c = '\t' || c = '\n' || c = '\x0d' || c = '\x0b' || c = '\x0c'

/-- Model of `strings.TrimSpace`. -/
def trimSpace (s : List Char) : List Char :=
  ((s.dropWhile isSpaceChar).reverse.dropWhile isSpaceChar).reverse

/-- The chapter title main builds from an anchor (line 188): trimmed anchor
text with newlines removed. -/
def anchorTitle (text : List Char) : List Char :=
  replaceAll (str "\n") (str "") (trimSpace text)

/-- Model of one iteration of main's anchor loop (lines 186-197): trim the
anchor text and strip newlines; skip empty titles; otherwise resolve the arc
via `WhichArc` (whose error main ignores: an unmatched chapter is appended to
the throwaway fresh arc, leaving the skeleton unchanged) and append the
placeholder chapter.  `none` models a panic inside `WhichArc`. -/
def processAnchor (arcs : List Arc) (text href : List Char) :
    Option (List Arc) :=
  if anchorTitle text = [] then some arcs
  else
    match whichArcE (anchorTitle text) arcs with
    | none => none
    | some (Except.ok i) =>
        some (appendAt arcs i
          { blankChapter with title := anchorTitle text, url := href })
    | some (Except.error _) => some arcs

/-! ## The manually inserted missing epilogue chapter (main, lines 199-207). -/

/-- The fixed chapter missing from the site's table of contents. -/
def missingChapter : Chapter :=
  { blankChapter with
    title := str "E.2"
    url := str "https://parahumans.wordpress.com/2013/11/05/teneral-e-2/" }

/-- Model of Go `copy(l[2:], l[1:])` with memmove semantics: positions
`2..` receive the old values at positions `1..len-2`. -/
def copyShift2 (l : List Chapter) : List Chapter :=
  l.take 2 ++ (l.drop 1).take (l.length - 2)

/-- Model of Go `l[i] = c`: `none` models the index-out-of-range panic. -/
def goSet (l : List Chapter) (i : Nat) (c : Chapter) : Option (List Chapter) :=
  if i < l.length then some (l.set i c) else none

/-- Model of main lines 199-207: resolve the arc for the fixed chapter
`E.2`, append it, shift with `copy`, and write it at index 1.  `none` models
a panic: either `WhichArc`'s fresh-arc error path (the subsequent index-1
write on a one-element slice is out of range) or the index-1 write itself. -/
def insertMissingChapter (arcs : List Arc) : Option (List Arc) :=
  match whichArcE missingChapter.title arcs with
  | none => none
  | some (Except.error _) => none
  | some (Except.ok i) =>
      match arcs.get? i with
      | none => none
      | some a =>
          match goSet (copyShift2 (a.chapters ++ [missingChapter])) 1
              missingChapter with
          | none => none
          | some l3 => some (arcs.set i { a with chapters := l3 })

/-! ## Lemmas about the WhichArc loop. -/

theorem whichArcLoop_eq_some (pfx : List Char) :
    ∀ (arcs : List Arc) (i : Nat) (a : Arc),
      arcs.get? i = some a → a.identifier = pfx →
      (∀ k b, k < i → arcs.get? k = some b → b.identifier ≠ pfx) →
      whichArcLoop pfx arcs = some i := by
  intro arcs
  induction arcs with
  | nil => intro i a ha _ _; simp at ha
  | cons hd tl ih =>
    intro i a ha hid hfirst
    cases i with
    | zero =>
      simp only [List.get?] at ha
      injection ha with ha
      subst ha
      simp [whichArcLoop, hid]
    | succ i =>
      have hhd : hd.identifier ≠ pfx :=
        hfirst 0 hd (Nat.succ_pos i) rfl
      simp only [List.get?] at ha
      have htl := ih i a ha hid
        (fun k b hk hget => hfirst (k + 1) b (Nat.succ_lt_succ hk) hget)
      simp [whichArcLoop, hhd, htl]

theorem whichArcLoop_eq_none (pfx : List Char) :
    ∀ (arcs : List Arc), (∀ b ∈ arcs, b.identifier ≠ pfx) →
      whichArcLoop pfx arcs = none := by
  intro arcs
  induction arcs with
  | nil => intro _; rfl
  | cons hd tl ih =>
    intro h
    have hhd : hd.identifier ≠ pfx := h hd (List.mem_cons_self hd tl)
    have htl := ih (fun b hb => h b (List.mem_cons_of_mem hd hb))
    simp [whichArcLoop, hhd, htl]

/-- C10: arc assignment needs a title of at least two characters: `WhichArc`
panics (modelled as `none`) on any shorter title; main's anchor loop guards
only against the empty title (returning the skeleton unchanged), so an
anchor whose trimmed text has exactly one character crashes the run. -/
theorem c10_short_title_panics (arcs : List Arc) (title text href : List Char) :
    (title.length < 2 → whichArcE title arcs = none) ∧
    ((anchorTitle text).length = 1 → processAnchor arcs text href = none) ∧
    ((anchorTitle text).length = 0 → processAnchor arcs text href = some arcs) := by
  refine ⟨fun h => by simp [whichArcE, h], fun h1 => ?_, fun h0 => ?_⟩
  · have hne : anchorTitle text ≠ [] := by
      intro hnil; rw [hnil] at h1; simp at h1
    have hlt : (anchorTitle text).length < 2 := by omega
    simp [processAnchor, hne, whichArcE, hlt]
  · have hnil : anchorTitle text = [] := List.length_eq_zero.mp h0
    simp [processAnchor, hnil]

/-- C10 witness: the anchor text " 1 " trims to the one-character title "1"
and crashes; the all-whitespace anchor is skipped harmlessly. -/
theorem c10_short_title_panics_wit :
    processAnchor [] (str " 1 ") (str "u") = none ∧
      processAnchor [] (str "  ") (str "u") = some [] :=
  ⟨(c10_short_title_panics [] (str "1") (str " 1 ") (str "u")).2.1 (by decide),
   (c10_short_title_panics [] (str "1") (str "  ") (str "u")).2.2 (by decide)⟩

/-- C4 counterexample: the claim quantifies over every non-empty trimmed
title, but a one-character title ("1", matching an existing arc identifier
even) makes the anchor loop panic inside `WhichArc` instead of appending or
dropping the chapter. -/
theorem c4_arc_assignment_cex :
    processAnchor [⟨str "1", str "Arc one", []⟩] (str "1") (str "u") = none := by
  decide

/-- C4 (amended): for every discovered chapter whose trimmed title has at
least two characters, the chapter is appended to the first arc whose
identifier equals the period-stripped two-character title prefix; when no
arc matches, `WhichArc` signals an error and the skeleton is unchanged. -/
theorem c4_arc_assignment (arcs : List Arc) (text href : List Char)
    (h2 : 2 ≤ (anchorTitle text).length) :
    (∀ i a, arcs.get? i = some a →
        a.identifier = arcPfx (anchorTitle text) →
        (∀ k b, k < i → arcs.get? k = some b →
          b.identifier ≠ arcPfx (anchorTitle text)) →
        processAnchor arcs text href =
          some (arcs.set i { a with chapters := a.chapters ++
            [{ blankChapter with title := anchorTitle text, url := href }] })) ∧
    ((∀ b ∈ arcs, b.identifier ≠ arcPfx (anchorTitle text)) →
        whichArcE (anchorTitle text) arcs = some (Except.error ()) ∧
        processAnchor arcs text href = some arcs) := by
  have hne : anchorTitle text ≠ [] := by
    intro hnil; rw [hnil] at h2; simp at h2
  have hnlt : ¬ (anchorTitle text).length < 2 := by omega
  constructor
  · intro i a ha hid hfirst
    have hloop := whichArcLoop_eq_some (arcPfx (anchorTitle text)) arcs i a
      ha hid hfirst
    have ha' : arcs[i]? = some a := by
      rw [← List.get?_eq_getElem?]; exact ha
    simp [processAnchor, hne, whichArcE, hnlt, hloop, appendAt, ha, ha']
  · intro hnone
    have hloop := whichArcLoop_eq_none (arcPfx (anchorTitle text)) arcs hnone
    simp [processAnchor, hne, whichArcE, hnlt, hloop]

/-- C4 witness: the two-character-prefix match "1." of title "1.1" resolves
to the arc with identifier "1" and the placeholder is appended there. -/
theorem c4_arc_assignment_wit :
    processAnchor [⟨str "1", str "Arc one", []⟩] (str "1.1") (str "u") =
      some [⟨str "1", str "Arc one",
        [{ blankChapter with title := str "1.1", url := str "u" }]⟩] :=
  (c4_arc_assignment [⟨str "1", str "Arc one", []⟩] (str "1.1") (str "u")
      (by decide)).1 0 ⟨str "1", str "Arc one", []⟩ rfl (by decide)
    (fun k b hk _ => absurd hk (Nat.not_lt_zero k))

/-! ## The index-1 splice (C3). -/

theorem goSet_copyShift2 (x c : Chapter) (xs : List Chapter) :
    goSet (copyShift2 ((x :: xs) ++ [c])) 1 c = some (x :: c :: xs) := by
  cases xs with
  | nil => simp [copyShift2, goSet, List.set]
  | cons y ys =>
    have htake : (ys ++ [c]).take ys.length = ys := List.take_left ys [c]
    simp [copyShift2, goSet, List.set, htake]

/-- C3 counterexample: with zero previously discovered epilogue chapters the
splice panics (the index-1 write lands out of range on the one-element
slice) instead of inserting at index 1. -/
theorem c3_missing_chapter_cex :
    insertMissingChapter [⟨str "E", str "Epilogue", []⟩] = none := by decide

/-- C3 (amended): whenever the first arc with identifier "E" has at least
one previously discovered chapter, the fixed chapter E.2 is inserted at
index 1 of that arc's chapter sequence, shifting the chapters from index 1
on one slot right and leaving index 0 and all other arcs unchanged; with an
empty chapter sequence the code panics instead. -/
theorem c3_missing_chapter_insertion (arcs : List Arc) (i : Nat) (a : Arc)
    (ha : arcs.get? i = some a) (hid : a.identifier = str "E")
    (hfirst : ∀ k b, k < i → arcs.get? k = some b → b.identifier ≠ str "E")
    (hne : a.chapters ≠ []) :
    insertMissingChapter arcs =
      some (arcs.set i { a with chapters :=
        (a.chapters.take 1 ++ missingChapter :: a.chapters.drop 1) }) := by
  have hloop : whichArcLoop (arcPfx missingChapter.title) arcs = some i := by
    rw [show arcPfx missingChapter.title = str "E" from by decide]
    exact whichArcLoop_eq_some (str "E") arcs i a ha hid hfirst
  obtain ⟨x, xs, hx⟩ : ∃ x xs, a.chapters = x :: xs := by
    cases hc : a.chapters with
    | nil => exact absurd hc hne
    | cons x xs => exact ⟨x, xs, rfl⟩
  have hlen : ¬ (missingChapter.title.length < 2) := by decide
  simp only [insertMissingChapter, whichArcE, if_neg hlen, hloop, ha, hx,
    goSet_copyShift2, List.take, List.drop, List.singleton_append]

/-- C3 witness: one previously discovered epilogue chapter; E.2 lands at
index 1, after it. -/
theorem c3_missing_chapter_insertion_wit :
    insertMissingChapter
        [⟨str "E", str "Epilogue", [{ blankChapter with title := str "E.1" }]⟩] =
      some [⟨str "E", str "Epilogue",
        [{ blankChapter with title := str "E.1" }, missingChapter]⟩] :=
  c3_missing_chapter_insertion
    [⟨str "E", str "Epilogue", [{ blankChapter with title := str "E.1" }]⟩] 0
    ⟨str "E", str "Epilogue", [{ blankChapter with title := str "E.1" }]⟩ rfl rfl
    (fun k b hk _ => absurd hk (Nat.not_lt_zero k)) (by decide)

/-! ## Chapter page parsing (Chapter.Parse, src/worm_scraper.go lines 73-131). -/

/-- One `.entry-content > p` element of a fetched chapter page: the number of
anchor nodes found under it, its inner HTML, and its padding-left /
text-align attributes when present. -/
structure Element where
  anchors : Nat
  html : List Char
  paddingLeft : Option (List Char)
  textAlign : Option (List Char)
deriving DecidableEq

/-- Classification of one retained content element (lines 113-122). -/
def classifyElement (e : Element) : List Char :=
  if e.paddingLeft = some (str "30px") then str "    " ++ e.html
  else if e.textAlign = some (str "center") then str "----------"
  else e.html

/-- Paragraph extraction (lines 102-127): skip any element containing an
anchor node, classify and format the rest, in source order. -/
def extractParagraphs : List Element → List (List Char)
  | [] => []
  | e :: rest =>
    if e.anchors > 0 then extractParagraphs rest
    else format (classifyElement e) :: extractParagraphs rest

/-- Instrumented extraction recording, for each produced paragraph, the index
of the source element it derives from (`i` is the index of the head). -/
def extractTagged : Nat → List Element → List (Nat × List Char)
  | _, [] => []
  | i, e :: rest =>
    if e.anchors > 0 then extractTagged (i + 1) rest
    else (i, format (classifyElement e)) :: extractTagged (i + 1) rest

theorem extractTagged_source :
    ∀ (els : List Element) (k i : Nat) (p : List Char),
      (i, p) ∈ extractTagged k els →
      ∃ e, k ≤ i ∧ els.get? (i - k) = some e ∧ e.anchors = 0 ∧
        p = format (classifyElement e) := by
  intro els
  induction els with
  | nil => intro k i p h; simp [extractTagged] at h
  | cons e rest ih =>
    intro k i p h
    by_cases he : e.anchors > 0
    · simp only [extractTagged, if_pos he] at h
      obtain ⟨e', hk, hget, hanch, hp⟩ := ih (k + 1) i p h
      refine ⟨e', by omega, ?_, hanch, hp⟩
      have : i - k = (i - (k + 1)) + 1 := by omega
      rw [this]
      simpa using hget
    · simp only [extractTagged, if_neg he] at h
      rcases List.mem_cons.mp h with heq | hmem
      · have hik : i = k := by
          have := congrArg Prod.fst heq; simpa using this
        have hpp : p = format (classifyElement e) := by
          have := congrArg Prod.snd heq; simpa using this
        subst hik
        exact ⟨e, Nat.le_refl _, by simp, by omega, hpp⟩
      · obtain ⟨e', hk, hget, hanch, hp⟩ := ih (k + 1) i p hmem
        refine ⟨e', by omega, ?_, hanch, hp⟩
        have : i - k = (i - (k + 1)) + 1 := by omega
        rw [this]
        simpa using hget

theorem extractTagged_map_snd :
    ∀ (els : List Element) (k : Nat),
      (extractTagged k els).map Prod.snd = extractParagraphs els := by
  intro els
  induction els with
  | nil => intro k; rfl
  | cons e rest ih =>
    intro k
    by_cases he : e.anchors > 0 <;>
      simp [extractTagged, extractParagraphs, he, ih (k + 1)]

/-- C5: paragraph extraction never keeps a paragraph derived from a content
element that contains a hyperlink: the extracted list is exactly the
per-element output of the instrumentation, and every instrumented paragraph
originates from an element with zero anchor nodes. -/
theorem c5_no_link_paragraph (els : List Element) :
    extractParagraphs els = (extractTagged 0 els).map Prod.snd ∧
    ∀ i p, (i, p) ∈ extractTagged 0 els →
      ∃ e, els.get? i = some e ∧ e.anchors = 0 ∧
        p = format (classifyElement e) := by
  refine ⟨(extractTagged_map_snd els 0).symm, fun i p h => ?_⟩
  obtain ⟨e, _, hget, hanch, hp⟩ := extractTagged_source els 0 i p h
  exact ⟨e, by simpa using hget, hanch, hp⟩

/-- C5 witness: a two-element page where the first element holds a
navigation link; the only surviving paragraph originates from the second,
link-free element. -/
theorem c5_no_link_paragraph_wit :
    ∃ e, ([⟨1, str "nav", none, none⟩, ⟨0, str "hi", none, none⟩] :
        List Element).get? 1 = some e ∧ e.anchors = 0 ∧
      format (classifyElement ⟨0, str "hi", none, none⟩) =
        format (classifyElement e) :=
  (c5_no_link_paragraph [⟨1, str "nav", none, none⟩, ⟨0, str "hi", none, none⟩]).2
    1 (format (classifyElement ⟨0, str "hi", none, none⟩)) (by decide)

/-- C6: the classification of a retained content element is decided in
source order: a padding-left attribute of 30px yields the element's inner
HTML behind a four-space indent (regardless of text-align); otherwise a
text-align attribute of center yields exactly the separator marker, the
inner content being discarded (the formatter also leaves the marker
untouched); otherwise the inner HTML is the paragraph source verbatim. -/
theorem c6_classification_order (e : Element) :
    (e.paddingLeft = some (str "30px") →
      classifyElement e = str "    " ++ e.html) ∧
    (e.paddingLeft ≠ some (str "30px") → e.textAlign = some (str "center") →
      classifyElement e = str "----------" ∧
      format (classifyElement e) = str "----------") ∧
    (e.paddingLeft ≠ some (str "30px") → e.textAlign ≠ some (str "center") →
      classifyElement e = e.html) := by
  refine ⟨fun hp => by simp [classifyElement, hp],
    fun hp hc => ?_, fun hp hc => by simp [classifyElement, hp, hc]⟩
  have hcl : classifyElement e = str "----------" := by
    simp [classifyElement, hp, hc]
  exact ⟨hcl, by rw [hcl]; decide⟩

/-- C6 witness: all three classification branches on concrete elements; the
first carries both marker attributes and the padding branch wins. -/
theorem c6_classification_order_wit :
    classifyElement ⟨0, str "q", some (str "30px"), some (str "center")⟩ =
        str "    " ++ str "q" ∧
      (classifyElement ⟨0, str "junk", none, some (str "center")⟩ =
          str "----------" ∧
        format (classifyElement ⟨0, str "junk", none, some (str "center")⟩) =
          str "----------") ∧
      classifyElement ⟨0, str "t", none, none⟩ = str "t" :=
  ⟨(c6_classification_order
      ⟨0, str "q", some (str "30px"), some (str "center")⟩).1 rfl,
   (c6_classification_order ⟨0, str "junk", none, some (str "center")⟩).2.1
      (by decide) rfl,
   (c6_classification_order ⟨0, str "t", none, none⟩).2.2
      (by decide) (by decide)⟩

/-! ## The fetch/parse/retry task as a step function (C1). -/

/-- The data a successful fetch of a chapter page yields. -/
structure Page where
  title : List Char
  tags : List (List Char)
  date : List Char
  elements : List Element
deriving DecidableEq

/-- Result of the network fetch (`goquery.NewDocument`). -/
inductive FetchResult where
  | failure
  | success (p : Page)
deriving DecidableEq

/-- Outcome of one `Chapter.Parse` invocation: process-terminating panic,
a rescheduled fresh attempt (no completion signal), or completion with a
signal on the shared channel. -/
inductive ParseOutcome where
  | fatalAbort
  | retry (ch : Chapter)
  | done (ch : Chapter)
deriving DecidableEq

/-- URL normalization (lines 78-81). -/
def normalizeUrl (u : List Char) : List Char :=
  if (str "http").isPrefixOf u then u else str "https://" ++ u

/-- Population of a chapter from a successfully fetched page
(lines 90-127). -/
def populateChapter (ch : Chapter) (p : Page) : Chapter :=
  { ch with
    title := p.title
    tags := ch.tags ++ p.tags
    datePosted := p.date
    paragraphs := ch.paragraphs ++ extractParagraphs p.elements }

/-- One invocation of `Chapter.Parse` (lines 73-131): panic at entry when
the retry counter exceeds 3; otherwise normalize the URL and either retry on
fetch failure (counter incremented, no signal) or populate and signal. -/
def parseStep (ch : Chapter) (r : FetchResult) : ParseOutcome :=
  if ch.retries > 3 then ParseOutcome.fatalAbort
  else
    match r with
    | FetchResult.failure =>
        ParseOutcome.retry
          { ch with url := normalizeUrl ch.url, retries := ch.retries + 1 }
    | FetchResult.success p =>
        ParseOutcome.done (populateChapter { ch with url := normalizeUrl ch.url } p)

/-- Whether an outcome sends the completion signal on the shared channel
(only line 130 does). -/
def signalsDone : ParseOutcome → Bool
  | ParseOutcome.done _ => true
  | _ => false

/-- C1: the task fatally aborts exactly when the chapter's retry counter
exceeds 3 at entry, whatever the fetch would return; on a fetch failure with
the counter within the bound, the counter is incremented by one and the same
chapter is rescheduled as a fresh attempt, with no completion signal. -/
theorem c1_retry_bound (ch : Chapter) (r : FetchResult) :
    (parseStep ch r = ParseOutcome.fatalAbort ↔ 3 < ch.retries) ∧
    (ch.retries ≤ 3 →
      parseStep ch FetchResult.failure =
        ParseOutcome.retry
          { ch with url := normalizeUrl ch.url, retries := ch.retries + 1 } ∧
      signalsDone (parseStep ch FetchResult.failure) = false) := by
  by_cases h : 3 < ch.retries
  · refine ⟨⟨fun _ => h, fun _ => by simp [parseStep, h]⟩, fun hle => ?_⟩
    omega
  · constructor
    · simp only [parseStep, if_neg h]
      cases r <;> simp [h]
    · intro _
      simp [parseStep, h, signalsDone]

/-- C1 witness: a chapter with no retries yet fails its fetch: it is
rescheduled with counter 1 and does not signal. -/
theorem c1_retry_bound_wit :
    parseStep { blankChapter with url := str "example.com" }
        FetchResult.failure =
      ParseOutcome.retry
        { blankChapter with
          url := normalizeUrl (str "example.com"), retries := 1 } ∧
    signalsDone (parseStep { blankChapter with url := str "example.com" }
        FetchResult.failure) = false :=
  (c1_retry_bound { blankChapter with url := str "example.com" }
      FetchResult.failure).2 (by decide)

/-! ## Completion-order independence of the assembled document (C2).

Main launches one task per chapter slot (lines 209-217); each task writes
only its own pre-allocated slot `arc.Chapters[i]`, the completion barrier
waits for all of them (lines 222-235), and assembly walks the skeleton in
order (lines 253-275).  `res i j` abstracts the fully populated chapter the
task owning slot `(i, j)` leaves behind; a completion order is the sequence
in which the tasks commit their slot. -/

/-- Commit the result of the task owning slot `s` into its own slot. -/
def writeSlot (res : Nat → Nat → Chapter) (arcs : List Arc) (s : Nat × Nat) :
    List Arc :=
  match arcs[s.1]? with
  | none => arcs
  | some a =>
      arcs.set s.1 { a with chapters := a.chapters.set s.2 (res s.1 s.2) }

/-- Commit all task results in the given completion order. -/
def runOrder (res : Nat → Nat → Chapter) (order : List (Nat × Nat))
    (arcs : List Arc) : List Arc :=
  order.foldl (writeSlot res) arcs

/-- The chapter currently in slot `(i, j)`. -/
def getSlot (arcs : List Arc) (i j : Nat) : Option Chapter :=
  match arcs[i]? with
  | none => none
  | some a => a.chapters[j]?

/-- The chapter list of arc `i` with every slot from `j` on populated. -/
def fillChapters (res : Nat → Nat → Chapter) (i : Nat) :
    Nat → List Chapter → List Chapter
  | _, [] => []
  | j, _ :: rest => res i j :: fillChapters res i (j + 1) rest

/-- The skeleton from arc `i` on with every slot populated. -/
def fillArcs (res : Nat → Nat → Chapter) : Nat → List Arc → List Arc
  | _, [] => []
  | i, a :: rest =>
      { a with chapters := fillChapters res i 0 a.chapters } ::
        fillArcs res (i + 1) rest

/-- The skeleton with every slot populated by its owning task's result:
the completion-order-free description of the final structure. -/
def fillAll (res : Nat → Nat → Chapter) (arcs : List Arc) : List Arc :=
  fillArcs res 0 arcs

/-- The slots of one arc at index `i`. -/
def arcSlots (i : Nat) (a : Arc) : List (Nat × Nat) :=
  (List.range a.chapters.length).map (fun j => (i, j))

/-- All slots of the skeleton from arc index `k` on. -/
def allSlotsFrom : Nat → List Arc → List (Nat × Nat)
  | _, [] => []
  | k, a :: rest => arcSlots k a ++ allSlotsFrom (k + 1) rest

/-- All chapter slots of the skeleton, one per launched task. -/
def allSlots (arcs : List Arc) : List (Nat × Nat) := allSlotsFrom 0 arcs

/-! ### Document assembly (main lines 246-275). -/

def joinList : List (List Char) → List Char
  | [] => []
  | x :: rest => x ++ joinList rest

/-- Model of `strings.Join(ts, ", ")`. -/
def joinComma : List (List Char) → List Char
  | [] => []
  | [t] => t
  | t :: rest => t ++ str ", " ++ joinComma rest

def mainSite : List Char := str "https://parahumans.wordpress.com/"

/-- The text emitted for one chapter (lines 256-274). -/
def chapterBlock (withTags withDate withLink : Bool) (ch : Chapter) :
    List Char :=
  str "\n\n" ++ (str "## " ++ ch.title ++ str "\n\n") ++
    (if withTags then str "**Tags:** " ++ joinComma ch.tags ++ str "  "
      else []) ++
    (if withDate then str "**Date:** " ++ ch.datePosted ++ str "  "
      else []) ++
    (if withLink then str "**Link:** " ++ ch.url ++ str "  " else []) ++
    str "\n\n" ++
    joinList (ch.paragraphs.map (fun p => p ++ str "\n\n"))

/-- The complete flat document (lines 246-275): cover, then per arc a page
break and title followed by its chapters in order. -/
def assemble (withTags withDate withLink : Bool) (pageBreak : List Char)
    (arcs : List Arc) : List Char :=
  str "# Worm\n\n" ++ str "By Wildbow\n\n" ++ (str "Website: " ++ mainSite) ++
    joinList (arcs.map (fun arc =>
      pageBreak ++ arc.title ++
        joinList (arc.chapters.map (chapterBlock withTags withDate withLink))))

/-! ### Slot lemmas. -/

/-- The shape of an arc: everything a slot write can never change. -/
def arcShape (a : Arc) : List Char × List Char × Nat :=
  (a.identifier, a.title, a.chapters.length)

theorem getSlot_writeSlot (res : Nat → Nat → Chapter) (arcs : List Arc)
    (p : Nat × Nat) (i j : Nat) :
    getSlot (writeSlot res arcs p) i j =
      if p = (i, j) ∧ (getSlot arcs i j).isSome then some (res i j)
      else getSlot arcs i j := by
  obtain ⟨i₀, j₀⟩ := p
  cases h₀ : arcs[i₀]? with
  | none =>
    have hcond : ¬ ((i₀, j₀) = (i, j) ∧ (getSlot arcs i j).isSome = true) := by
      rintro ⟨heq, hsome⟩
      injection heq with hi hj
      subst hi; subst hj
      simp [getSlot, h₀] at hsome
    rw [if_neg hcond]
    simp [writeSlot, h₀]
  | some a =>
    have hlt : i₀ < arcs.length := by
      rcases List.getElem?_eq_some.mp h₀ with ⟨hl, _⟩; exact hl
    by_cases hi : i = i₀
    · subst hi
      by_cases hj : j = j₀
      · subst hj
        by_cases hjl : j < a.chapters.length
        · have hcond : (i, j) = (i, j) ∧ (getSlot arcs i j).isSome = true := by
            refine ⟨rfl, ?_⟩
            simp only [getSlot, h₀]
            cases hc : a.chapters[j]? with
            | none => exact absurd (List.getElem?_eq_none_iff.mp hc) (by omega)
            | some c => simp
          rw [if_pos hcond]
          simp only [writeSlot, h₀, getSlot, List.getElem?_set_eq_of_lt _ hlt]
          simp [List.getElem?_set_eq_of_lt _ hjl]
        · have hset : a.chapters.set j (res i j) = a.chapters :=
            List.set_eq_of_length_le (by omega)
          have hcond : ¬ ((i, j) = (i, j) ∧ (getSlot arcs i j).isSome = true) := by
            rintro ⟨_, hsome⟩
            simp only [getSlot, h₀] at hsome
            rw [List.getElem?_eq_none (by omega)] at hsome
            simp at hsome
          rw [if_neg hcond]
          simp [writeSlot, h₀, getSlot, List.getElem?_set_eq_of_lt _ hlt, hset]
      · have hcond : ¬ ((i, j₀) = (i, j) ∧ (getSlot arcs i j).isSome = true) := by
          rintro ⟨heq, _⟩
          injection heq with _ hj'
          exact hj hj'.symm
        rw [if_neg hcond]
        simp only [writeSlot, h₀, getSlot, List.getElem?_set_eq_of_lt _ hlt]
        simp [List.getElem?_set_ne (fun h => hj (h.symm))]
    · have hcond : ¬ ((i₀, j₀) = (i, j) ∧ (getSlot arcs i j).isSome = true) := by
        rintro ⟨heq, _⟩
        injection heq with hi' _
        exact hi hi'.symm
      rw [if_neg hcond]
      simp only [writeSlot, h₀, getSlot,
        List.getElem?_set_ne (fun h => hi (h.symm))]

theorem getSlot_writeSlot_isSome (res : Nat → Nat → Chapter) (arcs : List Arc)
    (p : Nat × Nat) (i j : Nat) :
    (getSlot (writeSlot res arcs p) i j).isSome =
      (getSlot arcs i j).isSome := by
  rw [getSlot_writeSlot]
  by_cases h : p = (i, j) ∧ (getSlot arcs i j).isSome
  · rw [if_pos h]; simp [h.2]
  · rw [if_neg h]

theorem writeSlot_shape (res : Nat → Nat → Chapter) (arcs : List Arc)
    (p : Nat × Nat) (i : Nat) :
    ((writeSlot res arcs p)[i]?).map arcShape =
      (arcs[i]?).map arcShape := by
  obtain ⟨i₀, j₀⟩ := p
  cases h₀ : arcs[i₀]? with
  | none => simp [writeSlot, h₀]
  | some a =>
    have hlt : i₀ < arcs.length := by
      rcases List.getElem?_eq_some.mp h₀ with ⟨hl, _⟩; exact hl
    by_cases hi : i = i₀
    · subst hi
      simp [writeSlot, h₀, List.getElem?_set_eq_of_lt _ hlt, arcShape]
    · simp [writeSlot, h₀, List.getElem?_set_ne (fun h => hi (h.symm))]

theorem runOrder_shape (res : Nat → Nat → Chapter) (i : Nat) :
    ∀ (order : List (Nat × Nat)) (arcs : List Arc),
      ((runOrder res order arcs)[i]?).map arcShape =
        (arcs[i]?).map arcShape := by
  intro order
  induction order with
  | nil => intro arcs; rfl
  | cons p rest ih =>
    intro arcs
    show ((runOrder res rest (writeSlot res arcs p))[i]?).map arcShape = _
    rw [ih (writeSlot res arcs p), writeSlot_shape]

theorem getSlot_runOrder (res : Nat → Nat → Chapter) (i j : Nat) :
    ∀ (order : List (Nat × Nat)) (arcs : List Arc),
      getSlot (runOrder res order arcs) i j =
        if (i, j) ∈ order ∧ (getSlot arcs i j).isSome then some (res i j)
        else getSlot arcs i j := by
  intro order
  induction order with
  | nil => intro arcs; simp [runOrder]
  | cons p rest ih =>
    intro arcs
    show getSlot (runOrder res rest (writeSlot res arcs p)) i j = _
    rw [ih (writeSlot res arcs p), getSlot_writeSlot_isSome,
      getSlot_writeSlot]
    by_cases hs : (getSlot arcs i j).isSome
    · by_cases hmem : (i, j) ∈ rest
      · simp [hmem, hs, List.mem_cons]
      · by_cases hp : p = (i, j)
        · simp [hmem, hs, hp, List.mem_cons]
        · have hp' : ¬ ((i, j) = p) := fun h => hp h.symm
          simp [hmem, hs, hp, hp', List.mem_cons]
    · simp [hs]

theorem fillChapters_getElem? (res : Nat → Nat → Chapter) (i : Nat) :
    ∀ (l : List Chapter) (k j : Nat),
      (fillChapters res i k l)[j]? =
        if j < l.length then some (res i (k + j)) else none := by
  intro l
  induction l with
  | nil => intro k j; simp [fillChapters]
  | cons c rest ih =>
    intro k j
    cases j with
    | zero => simp [fillChapters]
    | succ j =>
      simp only [fillChapters, List.getElem?_cons_succ]
      rw [ih (k + 1) j]
      have harith : k + 1 + j = k + (j + 1) := by omega
      by_cases hj : j < rest.length
      · rw [if_pos hj, if_pos (by simp [List.length_cons]; omega), harith]
      · rw [if_neg hj, if_neg (by simp [List.length_cons]; omega)]

theorem fillArcs_getElem? (res : Nat → Nat → Chapter) :
    ∀ (arcs : List Arc) (k i : Nat),
      (fillArcs res k arcs)[i]? = (arcs[i]?).map
        (fun a => { a with chapters := fillChapters res (k + i) 0 a.chapters }) := by
  intro arcs
  induction arcs with
  | nil => intro k i; simp [fillArcs]
  | cons a rest ih =>
    intro k i
    cases i with
    | zero => simp [fillArcs]
    | succ i =>
      simp only [fillArcs, List.getElem?_cons_succ]
      rw [ih (k + 1) i]
      have harith : k + 1 + i = k + (i + 1) := by omega
      simp [harith]

theorem runOrder_eq_fillAll (res : Nat → Nat → Chapter) (arcs : List Arc)
    (order : List (Nat × Nat))
    (hcov : ∀ i j, (getSlot arcs i j).isSome = true → (i, j) ∈ order) :
    runOrder res order arcs = fillAll res arcs := by
  apply List.ext_getElem?
  intro n
  rw [fillAll, fillArcs_getElem? res arcs 0 n]
  have hshape := runOrder_shape res n order arcs
  cases hn : arcs[n]? with
  | none =>
    rw [hn] at hshape
    simp only [Option.map_none'] at hshape
    rw [Option.map_eq_none'] at hshape
    rw [hshape]
    rfl
  | some a =>
    rw [hn] at hshape
    cases hr : (runOrder res order arcs)[n]? with
    | none => rw [hr] at hshape; simp at hshape
    | some a' =>
      rw [hr] at hshape
      simp only [Option.map_some', Option.some.injEq, arcShape,
        Prod.mk.injEq] at hshape
      obtain ⟨hident, htitle, hlen⟩ := hshape
      simp only [Option.map_some', Option.some.injEq]
      have hchap : a'.chapters = fillChapters res (0 + n) 0 a.chapters := by
        apply List.ext_getElem?
        intro j
        have hget : getSlot (runOrder res order arcs) n j = a'.chapters[j]? := by
          simp [getSlot, hr]
        rw [getSlot_runOrder res n j order arcs] at hget
        rw [fillChapters_getElem?]
        by_cases hj : j < a.chapters.length
        · have hsome : (getSlot arcs n j).isSome = true := by
            simp only [getSlot, hn]
            cases hc : a.chapters[j]? with
            | none => exact absurd (List.getElem?_eq_none_iff.mp hc) (by omega)
            | some c => rfl
          rw [if_pos ⟨hcov n j hsome, hsome⟩] at hget
          rw [← hget, if_pos hj]
          simp [Nat.zero_add]
        · have hnone : getSlot arcs n j = none := by
            simp only [getSlot, hn]
            exact List.getElem?_eq_none (by omega)
          rw [hnone] at hget
          simp only [Option.isSome_none, Bool.false_eq_true, and_false,
            if_false] at hget
          rw [← hget, if_neg hj]
      cases a' with
      | mk id' t' ch' =>
        cases a with
        | mk id t ch =>
          simp only [Arc.mk.injEq]
          simp only at hident htitle hchap
          exact ⟨hident, htitle, hchap⟩

theorem mem_allSlotsFrom :
    ∀ (arcs : List Arc) (k i j : Nat) (a : Arc),
      arcs[i]? = some a → j < a.chapters.length →
      (k + i, j) ∈ allSlotsFrom k arcs := by
  intro arcs
  induction arcs with
  | nil => intro k i j a ha _; simp at ha
  | cons hd tl ih =>
    intro k i j a ha hj
    cases i with
    | zero =>
      rw [List.getElem?_cons_zero] at ha
      injection ha with ha
      subst ha
      simp only [allSlotsFrom, List.mem_append]
      left
      simp [arcSlots, List.mem_map, List.mem_range]
      exact hj
    | succ i =>
      rw [List.getElem?_cons_succ] at ha
      have := ih (k + 1) i j a ha hj
      simp only [allSlotsFrom, List.mem_append]
      right
      have harith : k + (i + 1) = k + 1 + i := by omega
      rw [harith]
      exact this

theorem mem_allSlots (arcs : List Arc) (i j : Nat)
    (h : (getSlot arcs i j).isSome = true) : (i, j) ∈ allSlots arcs := by
  cases hn : arcs[i]? with
  | none => simp [getSlot, hn] at h
  | some a =>
    simp only [getSlot, hn] at h
    cases hc : a.chapters[j]? with
    | none => rw [hc] at h; simp at h
    | some c =>
      have hj : j < a.chapters.length := by
        rcases List.getElem?_eq_some.mp hc with ⟨hl, _⟩; exact hl
      have := mem_allSlotsFrom arcs 0 i j a hn hj
      simpa using this

/-- C2: for any two completion orders of the per-chapter tasks (any two
permutations of the full slot list), the committed skeleton equals the
Classifier's skeleton with every slot populated by its owner's result, so
the assembled document is identical: final order never depends on
completion order. -/
theorem c2_completion_order_independent (res : Nat → Nat → Chapter)
    (arcs : List Arc) (o1 o2 : List (Nat × Nat))
    (wt wd wl : Bool) (pb : List Char)
    (h1 : o1.Perm (allSlots arcs)) (h2 : o2.Perm (allSlots arcs)) :
    runOrder res o1 arcs = fillAll res arcs ∧
    assemble wt wd wl pb (runOrder res o1 arcs) =
      assemble wt wd wl pb (runOrder res o2 arcs) := by
  have e1 : runOrder res o1 arcs = fillAll res arcs :=
    runOrder_eq_fillAll res arcs o1
      (fun i j hs => h1.mem_iff.mpr (mem_allSlots arcs i j hs))
  have e2 : runOrder res o2 arcs = fillAll res arcs :=
    runOrder_eq_fillAll res arcs o2
      (fun i j hs => h2.mem_iff.mpr (mem_allSlots arcs i j hs))
  exact ⟨e1, by rw [e1, e2]⟩

/-- A concrete task-result function for the C2 witness. -/
def c2Res : Nat → Nat → Chapter := fun i j =>
  { blankChapter with title := str "done", retries := 10 * i + j }

/-- A concrete two-arc skeleton for the C2 witness. -/
def c2Arcs : List Arc :=
  [⟨str "1", str "Arc one", [blankChapter, blankChapter]⟩,
   ⟨str "E", str "Epilogue", [blankChapter]⟩]

/-- C2 witness: two opposite completion orders of the three tasks commit to
the same skeleton and assemble to the same document. -/
theorem c2_completion_order_independent_wit :
    runOrder c2Res [(0, 0), (0, 1), (1, 0)] c2Arcs = fillAll c2Res c2Arcs ∧
    assemble true true true (str "\n\n")
        (runOrder c2Res [(0, 0), (0, 1), (1, 0)] c2Arcs) =
      assemble true true true (str "\n\n")
        (runOrder c2Res [(1, 0), (0, 1), (0, 0)] c2Arcs) :=
  c2_completion_order_independent c2Res c2Arcs
    [(0, 0), (0, 1), (1, 0)] [(1, 0), (0, 1), (0, 0)]
    true true true (str "\n\n") (by decide) (by decide)

/-! ## Output write phase (main lines 238-243, C9). -/

def outputName : List Char := str "Worm.md"

/-- The file system as the write phase sees it: named file contents. -/
structure FileSys where
  files : List (List Char × List Char)
deriving DecidableEq

def fileExists (fs : FileSys) (name : List Char) : Bool :=
  fs.files.any (fun f => f.1 = name)

/-- Model of the write phase: `os.OpenFile("Worm.md",
O_RDWR|O_CREATE|O_EXCL, 0666)` fails when the file already exists, and main
panics on that error before writing anything (`none`); otherwise the
assembled document is written to the newly created file. -/
def writePhase (fs : FileSys) (doc : List Char) : Option FileSys :=
  if fileExists fs outputName then none
  else some ⟨(outputName, doc) :: fs.files⟩

/-- C9: the write phase fails fatally exactly when the fixed-name output
file already exists, and in that case nothing is written; a successful
write only ever happens when the file was absent, and then only adds the
new file. -/
theorem c9_no_overwrite (fs : FileSys) (doc : List Char) :
    (fileExists fs outputName = true → writePhase fs doc = none) ∧
    (∀ fs', writePhase fs doc = some fs' →
      fileExists fs outputName = false ∧
      fs'.files = (outputName, doc) :: fs.files) := by
  constructor
  · intro h; simp [writePhase, h]
  · intro fs' h
    by_cases hex : fileExists fs outputName
    · simp [writePhase, hex] at h
    · simp only [writePhase, if_neg hex, Option.some.injEq] at h
      refine ⟨by simp [hex], ?_⟩
      rw [← h]

/-- C9 witness: with "Worm.md" already present the write phase aborts. -/
theorem c9_no_overwrite_wit :
    writePhase ⟨[(outputName, str "old")]⟩ (str "new document") = none :=
  (c9_no_overwrite ⟨[(outputName, str "old")]⟩ (str "new document")).1
    (by decide)

end WormScraper
